import Mathlib

/-!
Verification development for the cartographer_ros occupancy-grid node
(src/cartographer_ros/cartographer_ros/occupancy_grid_node_main.cc).

The file shallowly embeds the node's core logic:
  * the slice cache and its reconciliation pass (Node::HandleSubmapList),
  * the periodic render tick (Node::DrawAndPublish),
  * the quantization / coordinate-transform pipeline
    (Node::PublishOccupancyGrid).

External collaborators (the texture fetch service, the compositor
PaintSubmapSlices, cairo surface construction via DrawTexture) are modelled
as parameters or as data-capturing constructors, exactly as the node
observes them.  Machine doubles are modelled as exact rationals; machine
ints as Lean Int.
-/

namespace OccupancyGridNode

/-- Composite key of a submap: (trajectory id, submap index).
Mirrors cartographer::mapping::SubmapId. -/
structure SubmapId where
  trajectory_id : Int
  submap_index : Int
deriving DecidableEq, Repr

/-- Opaque rigid 3-D transform.  The node only copies poses around; it never
inspects them, so they are modelled as an abstract token. -/
structure Rigid3d where
  raw : Nat
deriving DecidableEq, Repr

/-- A cairo surface as produced by cartographer_ros::DrawTexture.  The node
treats it as an owned pixel buffer; we capture exactly the inputs DrawTexture
receives. -/
structure CairoSurface where
  intensity : List Nat
  alpha : List Nat
  width : Int
  height : Int
deriving DecidableEq, Repr

/-- cartographer_ros::DrawTexture (external): builds the cached surface from
the fetched texture channels and dimensions. -/
def DrawTexture (intensity alpha : List Nat) (width height : Int) :
    CairoSurface :=
  { intensity := intensity, alpha := alpha, width := width, height := height }

/-- cartographer::io::SubmapSlice, the per-id cache record.  Field names
follow the source: version is the texture version, metadata_version the
notification version; surface = none models a null cairo surface pointer. -/
structure SubmapSlice where
  pose : Rigid3d
  metadata_version : Int
  version : Int
  width : Int
  height : Int
  slice_pose : Rigid3d
  resolution : ℚ
  surface : Option CairoSurface
deriving DecidableEq, Repr

/-- A default-constructed SubmapSlice, as produced by std::map::operator[]
on first access: the surface smart pointer is null. -/
def defaultSlice : SubmapSlice :=
  { pose := ⟨0⟩, metadata_version := 0, version := 0, width := 0, height := 0,
    slice_pose := ⟨0⟩, resolution := 0, surface := none }

/-- One texture descriptor of a SubmapQuery response. -/
structure SubmapTexture where
  intensity : List Nat
  alpha : List Nat
  width : Int
  height : Int
  slice_pose : Rigid3d
  resolution : ℚ
deriving DecidableEq, Repr

/-- A successful SubmapQuery response: a response-level version plus the
ordered texture descriptor list. -/
structure SubmapQueryResponse where
  version : Int
  textures : List SubmapTexture
deriving DecidableEq, Repr

/-- One entry of a SubmapList message. -/
structure SubmapEntry where
  trajectory_id : Int
  submap_index : Int
  pose : Rigid3d
  submap_version : Int
deriving DecidableEq, Repr

/-- A SubmapList message: header frame id and stamp plus the entries. -/
structure SubmapListMsg where
  frame_id : String
  stamp : Int
  submap : List SubmapEntry
deriving DecidableEq, Repr

/-- The SubmapId built from one message entry (line 137 of the source). -/
def mkId (e : SubmapEntry) : SubmapId :=
  { trajectory_id := e.trajectory_id, submap_index := e.submap_index }

/-! ### Quantizer / transform (Node::PublishOccupancyGrid) -/

/-- The color channel of a packed pixel: bits 16-23 (unsigned char of
packed >> 16). -/
def colorOf (packed : Nat) : Nat :=
  (packed >>> 16) % 256

/-- The observed channel of a packed pixel: bits 8-15 (unsigned char of
packed >> 8). -/
def observedOf (packed : Nat) : Nat :=
  (packed >>> 8) % 256

/-- cartographer::common::RoundToInt on an exact rational: rounds to the
nearest integer (no argument here is ever exactly half-way). -/
def RoundToInt (q : ℚ) : Int :=
  round q

/-- The per-cell occupancy value (lines 221-224): -1 when unobserved,
otherwise round((1 - color/255) * 100). -/
def cellValue (packed : Nat) : Int :=
  if observedOf packed = 0 then -1
  else RoundToInt ((1 - (colorOf packed : ℚ) / 255) * 100)

/-- One emitted row of cells: x from 0 to width-1 over source row y
(inner loop, lines 217-228). -/
def quantizeRow (pixel : Nat → Nat) (width y : Nat) : List Int :=
  (List.range width).map (fun x => cellValue (pixel (y * width + x)))

/-- The full emitted cell sequence: y from height-1 down to 0, pushing each
row in turn (outer loop, line 216). -/
def gridData (pixel : Nat → Nat) (width height : Nat) : List Int :=
  ((List.range height).reverse).foldl
    (fun acc y => acc ++ quantizeRow pixel width y) []

/-- The published nav_msgs OccupancyGrid, restricted to the fields the node
sets. -/
structure OccupancyGrid where
  frame_id : String
  stamp : Int
  map_load_time : Int
  resolution : ℚ
  width : Nat
  height : Nat
  originX : ℚ
  originY : ℚ
  originZ : ℚ
  orientW : ℚ
  orientX : ℚ
  orientY : ℚ
  orientZ : ℚ
  data : List Int

/-- Node::PublishOccupancyGrid (lines 190-231): builds the grid message from
the painted surface.  originOx/originOy are the compositor origin offset in
cells; pixel is the surface's packed pixel array indexed row-major. -/
def PublishOccupancyGrid (resolution : ℚ) (frame_id : String) (time : Int)
    (originOx originOy : ℚ) (pixel : Nat → Nat) (width height : Nat) :
    OccupancyGrid :=
  { frame_id := frame_id
    stamp := time
    map_load_time := time
    resolution := resolution
    width := width
    height := height
    originX := -originOx * resolution
    originY := (-(height : ℚ) + originOy) * resolution
    originZ := 0
    orientW := 1
    orientX := 0
    orientY := 0
    orientZ := 0
    data := gridData pixel width height }

/-! ### Slice cache (Node::HandleSubmapList) -/

/-- The std::map of cached slices, as an association list with unique keys
(uniqueness is maintained by the operations below). -/
def Cache := List (SubmapId × SubmapSlice)

instance : DecidableEq Cache := by
  unfold Cache
  infer_instance

/-- Lookup of a key, first match. -/
def lookupSlice (id : SubmapId) : Cache → Option SubmapSlice
  | [] => none
  | (k, v) :: rest => if k = id then some v else lookupSlice id rest

/-- Upsert: replace the first binding of the key, or append a new one. -/
def insertSlice (id : SubmapId) (s : SubmapSlice) : Cache → Cache
  | [] => [(id, s)]
  | (k, v) :: rest =>
    if k = id then (id, s) :: rest else (k, v) :: insertSlice id s rest

/-- std::map::erase: remove every binding of the key. -/
def eraseSlice (id : SubmapId) (c : Cache) : Cache :=
  c.filter (fun p => p.1 ≠ id)

/-- The key list of a cache. -/
def cacheKeys (c : Cache) : List SubmapId :=
  c.map Prod.fst

/-- The mutable node state guarded by the mutex: the slice map plus the
last-known frame id and stamp. -/
structure NodeState where
  submap_slices : Cache
  last_frame_id : String
  last_timestamp : Int
deriving DecidableEq

/-- The record for a message entry after the unconditional upsert of lines
139-141: the existing record (default-constructed by std::map::operator[]
when absent) with the pose and metadata version taken from the entry. -/
def entrySlice (c : Cache) (item : SubmapEntry) : SubmapSlice :=
  { (lookupSlice (mkId item) c).getD defaultSlice with
    pose := item.pose, metadata_version := item.submap_version }

/-- The fetch condition of lines 142-145, read positively: a fetch call is
issued for an entry iff its record has no surface yet or the cached texture
version differs from the entry's version. -/
def fetchNeeded (c : Cache) (item : SubmapEntry) : Prop :=
  (entrySlice c item).surface = none ∨
    (entrySlice c item).version ≠ item.submap_version

instance (c : Cache) (item : SubmapEntry) : Decidable (fetchNeeded c item) := by
  unfold fetchNeeded
  infer_instance

/-- The body of the per-entry loop of HandleSubmapList (lines 136-168) for
one message entry.  fetch models cartographer_ros::FetchSubmapTextures
(none = service unavailable / null response).  Returns none when the
CHECK on an empty texture list fires (fatal abort), otherwise the updated
cache together with the list of fetch calls issued (by id). -/
def processItem (fetch : SubmapId → Option SubmapQueryResponse)
    (c : Cache) (item : SubmapEntry) : Option (Cache × List SubmapId) :=
  if (entrySlice c item).surface ≠ none ∧
      (entrySlice c item).version = item.submap_version then
    some (insertSlice (mkId item) (entrySlice c item) c, [])
  else
    match fetch (mkId item) with
    | none => some (insertSlice (mkId item) (entrySlice c item) c, [mkId item])
    | some resp =>
      match resp.textures with
      | [] => none
      | t :: _ =>
        some (insertSlice (mkId item)
          { entrySlice c item with
            version := resp.version
            width := t.width
            height := t.height
            slice_pose := t.slice_pose
            resolution := t.resolution
            surface := some (DrawTexture t.intensity t.alpha t.width t.height) }
          c, [mkId item])

/-- The per-entry loop over the whole message, threading the cache and
concatenating the fetch logs in order. -/
def processItems (fetch : SubmapId → Option SubmapQueryResponse) :
    Cache → List SubmapEntry → Option (Cache × List SubmapId)
  | c, [] => some (c, [])
  | c, item :: rest =>
    match processItem fetch c item with
    | none => none
    | some (c1, log1) =>
      match processItems fetch c1 rest with
      | none => none
      | some (c2, log2) => some (c2, log1 ++ log2)

/-- Node::HandleSubmapList (lines 120-177).  subscriberCount models
count_subscribers on the monitored topic; when it is zero the handler
returns with no work done.  Otherwise: record the ids to delete (current
keys minus the ids mentioned in the message), run the per-entry loop,
erase the unmentioned ids, and update the last frame id and stamp.
Returns none when the empty-texture CHECK aborts. -/
def HandleSubmapList (fetch : SubmapId → Option SubmapQueryResponse)
    (subscriberCount : Nat) (st : NodeState) (msg : SubmapListMsg) :
    Option (NodeState × List SubmapId) :=
  if subscriberCount = 0 then some (st, [])
  else
    let mentioned := msg.submap.map mkId
    let submap_ids_to_delete :=
      (cacheKeys st.submap_slices).filter (fun id => ¬ mentioned.contains id)
    match processItems fetch st.submap_slices msg.submap with
    | none => none
    | some (c, log) =>
      some ({ submap_slices :=
                submap_ids_to_delete.foldl (fun acc id => eraseSlice id acc) c
              last_frame_id := msg.frame_id
              last_timestamp := msg.stamp }, log)

/-! ### Render tick (Node::DrawAndPublish) -/

/-- The result of cartographer::io::PaintSubmapSlices (external compositor):
the composite frame with the origin offset in cells and the packed pixel
array. -/
structure PaintedSlicesResult where
  originX : ℚ
  originY : ℚ
  width : Nat
  height : Nat
  pixel : Nat → Nat

/-- Node::DrawAndPublish (lines 179-188): skip when the cache is empty or no
frame id was ever established, otherwise composite under the lock and build
the published grid.  compositor models PaintSubmapSlices. -/
def DrawAndPublish (compositor : Cache → ℚ → PaintedSlicesResult)
    (resolution : ℚ) (st : NodeState) : Option OccupancyGrid :=
  if st.submap_slices = [] ∨ st.last_frame_id = "" then none
  else
    let painted := compositor st.submap_slices resolution
    some (PublishOccupancyGrid resolution st.last_frame_id st.last_timestamp
      painted.originX painted.originY painted.pixel painted.width
      painted.height)

/-- Events of one DrawAndPublish call, in the order the source performs
them.  acquireLock is the MutexLocker construction (line 184); releaseLock
its destruction at the closing brace of the function; paintSubmapSlices the
compositor call (line 185); quantizeAndPublish the PublishOccupancyGrid
call (lines 186-187). -/
inductive DrawEvent where
  | acquireLock
  | paintSubmapSlices
  | quantizeAndPublish
  | releaseLock
deriving DecidableEq, Repr

/-- The event trace of one DrawAndPublish call, keyed by the two guard
conditions (lines 181-182).  The MutexLocker is scoped to the whole
function body, so its release is the last event, after the publish. -/
def drawAndPublishTrace (cacheEmpty frameIdEmpty : Bool) : List DrawEvent :=
  if cacheEmpty || frameIdEmpty then []
  else
    [DrawEvent.acquireLock, DrawEvent.paintSubmapSlices,
     DrawEvent.quantizeAndPublish, DrawEvent.releaseLock]

/-! ### Derived notions used by the statements -/

/-- Equality of the raster-dependent fields of two slice records: the buffer
(surface), its texture version, the dimensions, the slice origin and the
resolution.  These are exactly the fields replaced as a unit on a successful
fetch. -/
def rasterEq (s t : SubmapSlice) : Prop :=
  s.surface = t.surface ∧ s.version = t.version ∧ s.width = t.width ∧
    s.height = t.height ∧ s.slice_pose = t.slice_pose ∧
    s.resolution = t.resolution

/-- The fetch-call log of a HandleSubmapList result ([] when the call
aborted). -/
def fetchLogOf (r : Option (NodeState × List SubmapId)) : List SubmapId :=
  (r.map Prod.snd).getD []

/-! ### Concrete fixtures for witnesses and counterexamples -/

/-- A gateway that always reports unavailable. -/
def fetchUnavailable : SubmapId → Option SubmapQueryResponse :=
  fun _ => none

/-- A texture descriptor used by the version-9 gateway fixture. -/
def tex9 : SubmapTexture :=
  { intensity := [1], alpha := [2], width := 3, height := 4,
    slice_pose := ⟨5⟩, resolution := 1 }

/-- A response carrying one texture under response version 9. -/
def respV9 : SubmapQueryResponse :=
  { version := 9, textures := [tex9] }

/-- A gateway returning respV9 for every id. -/
def fetchV9 : SubmapId → Option SubmapQueryResponse :=
  fun _ => some respV9

/-- A compositor producing an empty frame, for ticks that are skipped
anyway. -/
def constCompositor : Cache → ℚ → PaintedSlicesResult :=
  fun _ _ =>
    { originX := 0, originY := 0, width := 0, height := 0, pixel := fun _ => 0 }

/-- The empty initial node state. -/
def emptyState : NodeState :=
  { submap_slices := [], last_frame_id := "", last_timestamp := 0 }

/-- Submap (0, 0). -/
def idA : SubmapId :=
  { trajectory_id := 0, submap_index := 0 }

/-- Submap (1, 2), used as a stale cached id. -/
def idB : SubmapId :=
  { trajectory_id := 1, submap_index := 2 }

/-- A message entry for idA at version 1. -/
def entryA : SubmapEntry :=
  { trajectory_id := 0, submap_index := 0, pose := ⟨1⟩, submap_version := 1 }

/-- A message mentioning only idA. -/
def msgA : SubmapListMsg :=
  { frame_id := "map", stamp := 5, submap := [entryA] }

/-- msgA with its entry duplicated. -/
def msgDupA : SubmapListMsg :=
  { frame_id := "map", stamp := 5, submap := [entryA, entryA] }

/-- A state caching only the stale id idB. -/
def stateB : NodeState :=
  { submap_slices := [(idB, defaultSlice)], last_frame_id := "old",
    last_timestamp := 1 }

/-- The record for idA after msgA is processed with an unavailable gateway:
pose and metadata version upserted, raster fields still default. -/
def sliceA : SubmapSlice :=
  { pose := ⟨1⟩, metadata_version := 1, version := 0, width := 0, height := 0,
    slice_pose := ⟨0⟩, resolution := 0, surface := none }

/-- The state after msgA is applied with an unavailable gateway. -/
def stateAfterA : NodeState :=
  { submap_slices := [(idA, sliceA)], last_frame_id := "map",
    last_timestamp := 5 }

/-- A fully populated record for idA at texture version 1. -/
def sliceA1 : SubmapSlice :=
  { pose := ⟨9⟩, metadata_version := 1, version := 1, width := 7, height := 8,
    slice_pose := ⟨6⟩, resolution := 1,
    surface := some (DrawTexture [3] [4] 7 8) }

/-- A state caching idA with the populated record sliceA1. -/
def stateA1 : NodeState :=
  { submap_slices := [(idA, sliceA1)], last_frame_id := "m",
    last_timestamp := 2 }

/-- sliceA1 after msgA repeats idA at the same version: pose and metadata
version overwritten, raster fields untouched. -/
def sliceA1After : SubmapSlice :=
  { pose := ⟨1⟩, metadata_version := 1, version := 1, width := 7, height := 8,
    slice_pose := ⟨6⟩, resolution := 1,
    surface := some (DrawTexture [3] [4] 7 8) }

/-- The state after msgA is applied to stateA1 (no fetch is attempted). -/
def stateA1After : NodeState :=
  { submap_slices := [(idA, sliceA1After)], last_frame_id := "map",
    last_timestamp := 5 }

/-- The record for idA after a successful fetch from fetchV9 on an empty
cache. -/
def sliceV9 : SubmapSlice :=
  { pose := ⟨1⟩, metadata_version := 1, version := 9, width := 3, height := 4,
    slice_pose := ⟨5⟩, resolution := 1,
    surface := some (DrawTexture [1] [2] 3 4) }

/-- The cache holding only sliceV9 under idA. -/
def cacheV9 : Cache :=
  [(idA, sliceV9)]

/-- A pixel array whose packed value at index i is i * 256, so the observed
byte of cell i is i mod 256. -/
def rampPixels : Nat → Nat :=
  fun i => i * 256

/-! ### Cache lemmas -/

theorem lookupSlice_insertSlice_self (id : SubmapId) (s : SubmapSlice)
    (c : Cache) : lookupSlice id (insertSlice id s c) = some s := by
  induction c with
  | nil => simp [insertSlice, lookupSlice]
  | cons p rest ih =>
    obtain ⟨k, v⟩ := p
    by_cases hk : k = id
    · simp [insertSlice, hk, lookupSlice]
    · simp [insertSlice, hk, lookupSlice, ih]

theorem lookupSlice_insertSlice_ne (k id : SubmapId) (s : SubmapSlice)
    (c : Cache) (h : k ≠ id) :
    lookupSlice k (insertSlice id s c) = lookupSlice k c := by
  have hik : ¬ id = k := fun he => h he.symm
  induction c with
  | nil => simp [insertSlice, lookupSlice, hik]
  | cons p rest ih =>
    obtain ⟨k0, v⟩ := p
    by_cases hk : k0 = id
    · subst hk
      simp [insertSlice, lookupSlice, hik]
    · simp [insertSlice, hk, lookupSlice, ih]

theorem mem_cacheKeys_insertSlice (k id : SubmapId) (s : SubmapSlice)
    (c : Cache) :
    k ∈ cacheKeys (insertSlice id s c) ↔ k = id ∨ k ∈ cacheKeys c := by
  induction c with
  | nil => simp [insertSlice, cacheKeys]
  | cons p rest ih =>
    obtain ⟨k0, v⟩ := p
    by_cases hk : k0 = id
    · rw [show insertSlice id s ((k0, v) :: rest) = (id, s) :: rest from by
        simp [insertSlice, hk]]
      subst hk
      simp only [cacheKeys, List.map_cons, List.mem_cons]
      tauto
    · rw [show insertSlice id s ((k0, v) :: rest) =
          (k0, v) :: insertSlice id s rest from by simp [insertSlice, hk]]
      simp only [cacheKeys, List.map_cons, List.mem_cons] at ih ⊢
      rw [ih]
      tauto

theorem lookupSlice_eraseSlice_ne (k j : SubmapId) (c : Cache) (h : k ≠ j) :
    lookupSlice k (eraseSlice j c) = lookupSlice k c := by
  induction c with
  | nil => rfl
  | cons p rest ih =>
    obtain ⟨k0, v⟩ := p
    by_cases hj : k0 = j
    · have h1 : eraseSlice j ((k0, v) :: rest) = eraseSlice j rest := by
        simp [eraseSlice, hj]
      have hne : ¬ k0 = k := fun he => h (he ▸ hj)
      have h2 : lookupSlice k ((k0, v) :: rest) = lookupSlice k rest := by
        simp [lookupSlice, hne]
      rw [h1, ih, h2]
    · have h1 : eraseSlice j ((k0, v) :: rest) = (k0, v) :: eraseSlice j rest := by
        simp [eraseSlice, hj]
      rw [h1]
      by_cases hk : k0 = k
      · simp [lookupSlice, hk]
      · simp [lookupSlice, hk, ih]

theorem mem_cacheKeys_eraseSlice (k j : SubmapId) (c : Cache) :
    k ∈ cacheKeys (eraseSlice j c) ↔ k ∈ cacheKeys c ∧ k ≠ j := by
  simp only [cacheKeys, eraseSlice, List.mem_map, List.mem_filter]
  constructor
  · rintro ⟨⟨a, b⟩, ⟨hm, hne⟩, rfl⟩
    refine ⟨⟨(a, b), hm, rfl⟩, ?_⟩
    simpa using hne
  · rintro ⟨⟨⟨a, b⟩, hm, rfl⟩, hne⟩
    exact ⟨(a, b), ⟨hm, by simpa using hne⟩, rfl⟩

theorem mem_cacheKeys_foldl_erase (ids : List SubmapId) (c : Cache)
    (k : SubmapId) :
    k ∈ cacheKeys (ids.foldl (fun acc id => eraseSlice id acc) c) ↔
      k ∈ cacheKeys c ∧ k ∉ ids := by
  induction ids generalizing c with
  | nil => simp
  | cons j rest ih =>
    rw [List.foldl_cons, ih, mem_cacheKeys_eraseSlice]
    simp only [List.mem_cons]
    tauto

theorem lookupSlice_foldl_erase (ids : List SubmapId) (c : Cache)
    (k : SubmapId) (h : k ∉ ids) :
    lookupSlice k (ids.foldl (fun acc id => eraseSlice id acc) c) =
      lookupSlice k c := by
  induction ids generalizing c with
  | nil => rfl
  | cons j rest ih =>
    rw [List.foldl_cons]
    have hkj : k ≠ j := fun he => h (he ▸ List.mem_cons_self j rest)
    have hrest : k ∉ rest := fun hm => h (List.mem_cons_of_mem j hm)
    rw [ih (eraseSlice j c) hrest, lookupSlice_eraseSlice_ne k j c hkj]

/-! ### Per-entry loop lemmas -/

theorem not_fetchNeeded_iff (c : Cache) (item : SubmapEntry) :
    ¬ fetchNeeded c item ↔
      ((entrySlice c item).surface ≠ none ∧
        (entrySlice c item).version = item.submap_version) := by
  unfold fetchNeeded
  push_neg
  exact Iff.rfl

theorem fetchNeeded_not_cond (c : Cache) (item : SubmapEntry)
    (hn : fetchNeeded c item) :
    ¬ ((entrySlice c item).surface ≠ none ∧
        (entrySlice c item).version = item.submap_version) := by
  intro hcond
  rcases hn with h1 | h2
  · exact hcond.1 h1
  · exact h2 hcond.2

theorem fetchNeeded_congr (c c' : Cache) (item : SubmapEntry)
    (h : lookupSlice (mkId item) c = lookupSlice (mkId item) c') :
    fetchNeeded c item ↔ fetchNeeded c' item := by
  unfold fetchNeeded entrySlice
  rw [h]

theorem processItem_eq_of_not_needed (fetch : SubmapId → Option SubmapQueryResponse)
    (c : Cache) (item : SubmapEntry) (hn : ¬ fetchNeeded c item) :
    processItem fetch c item =
      some (insertSlice (mkId item) (entrySlice c item) c, []) := by
  unfold processItem
  rw [if_pos ((not_fetchNeeded_iff c item).mp hn)]

theorem processItem_cases (fetch : SubmapId → Option SubmapQueryResponse)
    (c : Cache) (item : SubmapEntry) (c1 : Cache) (log : List SubmapId)
    (h : processItem fetch c item = some (c1, log)) :
    ∃ s : SubmapSlice, c1 = insertSlice (mkId item) s c ∧
      (log = [] ∨ log = [mkId item]) := by
  unfold processItem at h
  by_cases hc : ((entrySlice c item).surface ≠ none ∧
      (entrySlice c item).version = item.submap_version)
  · rw [if_pos hc] at h
    simp only [Option.some.injEq, Prod.mk.injEq] at h
    obtain ⟨h1, h2⟩ := h
    exact ⟨entrySlice c item, h1.symm, Or.inl h2.symm⟩
  · rw [if_neg hc] at h
    cases hf : fetch (mkId item) with
    | none =>
      rw [hf] at h
      simp only [Option.some.injEq, Prod.mk.injEq] at h
      obtain ⟨h1, h2⟩ := h
      exact ⟨entrySlice c item, h1.symm, Or.inr h2.symm⟩
    | some resp =>
      simp only [hf] at h
      cases ht : resp.textures with
      | nil =>
        simp only [ht] at h
        exact Option.noConfusion h
      | cons t ts =>
        simp only [ht, Option.some.injEq, Prod.mk.injEq] at h
        obtain ⟨h1, h2⟩ := h
        exact ⟨_, h1.symm, Or.inr h2.symm⟩

theorem processItem_lookup_ne (fetch : SubmapId → Option SubmapQueryResponse)
    (c : Cache) (item : SubmapEntry) (c1 : Cache) (log : List SubmapId)
    (k : SubmapId) (hk : k ≠ mkId item)
    (h : processItem fetch c item = some (c1, log)) :
    lookupSlice k c1 = lookupSlice k c := by
  obtain ⟨s, rfl, -⟩ := processItem_cases fetch c item c1 log h
  exact lookupSlice_insertSlice_ne k (mkId item) s c hk

theorem processItem_mem_keys (fetch : SubmapId → Option SubmapQueryResponse)
    (c : Cache) (item : SubmapEntry) (c1 : Cache) (log : List SubmapId)
    (k : SubmapId) (h : processItem fetch c item = some (c1, log)) :
    k ∈ cacheKeys c1 ↔ k = mkId item ∨ k ∈ cacheKeys c := by
  obtain ⟨s, rfl, -⟩ := processItem_cases fetch c item c1 log h
  exact mem_cacheKeys_insertSlice k (mkId item) s c

theorem processItem_log_mem (fetch : SubmapId → Option SubmapQueryResponse)
    (c : Cache) (item : SubmapEntry) (c1 : Cache) (log : List SubmapId)
    (h : processItem fetch c item = some (c1, log)) :
    ∀ x ∈ log, x = mkId item := by
  obtain ⟨s, -, hlog⟩ := processItem_cases fetch c item c1 log h
  rcases hlog with rfl | rfl
  · intro x hx
    cases hx
  · intro x hx
    simpa using hx

theorem processItem_log_of_needed (fetch : SubmapId → Option SubmapQueryResponse)
    (c : Cache) (item : SubmapEntry) (c1 : Cache) (log : List SubmapId)
    (hn : fetchNeeded c item) (h : processItem fetch c item = some (c1, log)) :
    log = [mkId item] := by
  unfold processItem at h
  rw [if_neg (fetchNeeded_not_cond c item hn)] at h
  cases hf : fetch (mkId item) with
  | none =>
    rw [hf] at h
    simp only [Option.some.injEq, Prod.mk.injEq] at h
    exact h.2.symm
  | some resp =>
    simp only [hf] at h
    cases ht : resp.textures with
    | nil =>
      simp only [ht] at h
      exact Option.noConfusion h
    | cons t ts =>
      simp only [ht, Option.some.injEq, Prod.mk.injEq] at h
      exact h.2.symm

theorem processItem_log_of_not_needed
    (fetch : SubmapId → Option SubmapQueryResponse)
    (c : Cache) (item : SubmapEntry) (c1 : Cache) (log : List SubmapId)
    (hn : ¬ fetchNeeded c item)
    (h : processItem fetch c item = some (c1, log)) : log = [] := by
  rw [processItem_eq_of_not_needed fetch c item hn] at h
  simp only [Option.some.injEq, Prod.mk.injEq] at h
  exact h.2.symm

/-! ### Whole-batch loop lemmas -/

theorem processItems_mem_keys (fetch : SubmapId → Option SubmapQueryResponse)
    (items : List SubmapEntry) :
    ∀ (c c2 : Cache) (log : List SubmapId),
      processItems fetch c items = some (c2, log) →
      ∀ k, (k ∈ cacheKeys c2 ↔ k ∈ items.map mkId ∨ k ∈ cacheKeys c) := by
  induction items with
  | nil =>
    intro c c2 log h k
    simp only [processItems, Option.some.injEq, Prod.mk.injEq] at h
    obtain ⟨rfl, rfl⟩ := h
    simp
  | cons item rest ih =>
    intro c c2 log h k
    simp only [processItems] at h
    cases h1 : processItem fetch c item with
    | none =>
      simp only [h1] at h
      exact Option.noConfusion h
    | some p =>
      obtain ⟨c1, log1⟩ := p
      simp only [h1] at h
      cases h2 : processItems fetch c1 rest with
      | none =>
        simp only [h2] at h
        exact Option.noConfusion h
      | some q =>
        obtain ⟨c2', log2⟩ := q
        simp only [h2, Option.some.injEq, Prod.mk.injEq] at h
        obtain ⟨rfl, rfl⟩ := h
        have hk1 := processItem_mem_keys fetch c item c1 log1 k h1
        have hk2 := ih c1 c2' log2 h2 k
        simp only [List.map_cons, List.mem_cons]
        rw [hk2, hk1]
        tauto

theorem processItems_log_mem (fetch : SubmapId → Option SubmapQueryResponse)
    (items : List SubmapEntry) :
    ∀ (c c2 : Cache) (log : List SubmapId),
      processItems fetch c items = some (c2, log) →
      ∀ x ∈ log, x ∈ items.map mkId := by
  induction items with
  | nil =>
    intro c c2 log h x hx
    simp only [processItems, Option.some.injEq, Prod.mk.injEq] at h
    obtain ⟨rfl, rfl⟩ := h
    cases hx
  | cons item rest ih =>
    intro c c2 log h x hx
    simp only [processItems] at h
    cases h1 : processItem fetch c item with
    | none =>
      simp only [h1] at h
      exact Option.noConfusion h
    | some p =>
      obtain ⟨c1, log1⟩ := p
      simp only [h1] at h
      cases h2 : processItems fetch c1 rest with
      | none =>
        simp only [h2] at h
        exact Option.noConfusion h
      | some q =>
        obtain ⟨c2', log2⟩ := q
        simp only [h2, Option.some.injEq, Prod.mk.injEq] at h
        obtain ⟨rfl, rfl⟩ := h
        simp only [List.map_cons, List.mem_cons]
        rcases List.mem_append.mp hx with hx1 | hx2
        · exact Or.inl (processItem_log_mem fetch c item c1 log1 h1 x hx1)
        · exact Or.inr (ih c1 c2' log2 h2 x hx2)

theorem processItems_lookup_ne (fetch : SubmapId → Option SubmapQueryResponse)
    (items : List SubmapEntry) (k : SubmapId)
    (hk : ∀ item ∈ items, mkId item ≠ k) :
    ∀ (c c2 : Cache) (log : List SubmapId),
      processItems fetch c items = some (c2, log) →
      lookupSlice k c2 = lookupSlice k c := by
  induction items with
  | nil =>
    intro c c2 log h
    simp only [processItems, Option.some.injEq, Prod.mk.injEq] at h
    obtain ⟨rfl, rfl⟩ := h
    rfl
  | cons item rest ih =>
    intro c c2 log h
    simp only [processItems] at h
    cases h1 : processItem fetch c item with
    | none =>
      simp only [h1] at h
      exact Option.noConfusion h
    | some p =>
      obtain ⟨c1, log1⟩ := p
      simp only [h1] at h
      cases h2 : processItems fetch c1 rest with
      | none =>
        simp only [h2] at h
        exact Option.noConfusion h
      | some q =>
        obtain ⟨c2', log2⟩ := q
        simp only [h2, Option.some.injEq, Prod.mk.injEq] at h
        obtain ⟨rfl, rfl⟩ := h
        have hrest : ∀ it ∈ rest, mkId it ≠ k :=
          fun it hit => hk it (List.mem_cons_of_mem item hit)
        have hne : k ≠ mkId item :=
          fun he => hk item (List.mem_cons_self item rest) he.symm
        rw [ih hrest c1 c2' log2 h2,
          processItem_lookup_ne fetch c item c1 log1 k hne h1]

theorem processItems_count (fetch : SubmapId → Option SubmapQueryResponse)
    (items : List SubmapEntry) (id : SubmapId) :
    ∀ (c c2 : Cache) (log : List SubmapId),
      (items.map mkId).Nodup →
      processItems fetch c items = some (c2, log) →
      log.count id ≤ 1 ∧
        ∀ item ∈ items, mkId item = id → fetchNeeded c item →
          log.count id = 1 := by
  induction items with
  | nil =>
    intro c c2 log _ h
    simp only [processItems, Option.some.injEq, Prod.mk.injEq] at h
    obtain ⟨rfl, rfl⟩ := h
    exact ⟨by simp, fun item hit => absurd hit (List.not_mem_nil item)⟩
  | cons item rest ih =>
    intro c c2 log hdup h
    simp only [processItems] at h
    cases h1 : processItem fetch c item with
    | none =>
      simp only [h1] at h
      exact Option.noConfusion h
    | some p =>
      obtain ⟨c1, log1⟩ := p
      simp only [h1] at h
      cases h2 : processItems fetch c1 rest with
      | none =>
        simp only [h2] at h
        exact Option.noConfusion h
      | some q =>
        obtain ⟨c2', log2⟩ := q
        simp only [h2, Option.some.injEq, Prod.mk.injEq] at h
        obtain ⟨rfl, rfl⟩ := h
        simp only [List.map_cons, List.nodup_cons] at hdup
        obtain ⟨hnotin, hdup'⟩ := hdup
        have ih' := ih c1 c2' log2 hdup' h2
        rw [List.count_append]
        by_cases hid : id = mkId item
        · have hcount2 : log2.count id = 0 := by
            rw [List.count_eq_zero]
            intro hmem
            exact hnotin
              (hid ▸ processItems_log_mem fetch rest c1 c2' log2 h2 id hmem)
          rw [hcount2, Nat.add_zero]
          by_cases hneed : fetchNeeded c item
          · have hlog1 : log1 = [mkId item] :=
              processItem_log_of_needed fetch c item c1 log1 hneed h1
            have hc1 : log1.count id = 1 := by
              rw [hlog1, hid]
              simp
            exact ⟨le_of_eq hc1, fun _ _ _ _ => hc1⟩
          · have hlog1 : log1 = [] :=
              processItem_log_of_not_needed fetch c item c1 log1 hneed h1
            have hc1 : log1.count id = 0 := by
              rw [hlog1]
              rfl
            refine ⟨by omega, ?_⟩
            intro item' hmem' hid' hneed'
            rcases List.mem_cons.mp hmem' with rfl | hmem''
            · exact absurd hneed' hneed
            · have hmm : mkId item ∈ List.map mkId rest := by
                rw [← hid, ← hid']
                exact List.mem_map_of_mem mkId hmem''
              exact absurd hmm hnotin
        · have hcount1 : log1.count id = 0 := by
            rw [List.count_eq_zero]
            intro hmem
            exact hid (processItem_log_mem fetch c item c1 log1 h1 id hmem)
          rw [hcount1, Nat.zero_add]
          refine ⟨ih'.1, ?_⟩
          intro item' hmem' hid' hneed'
          rcases List.mem_cons.mp hmem' with rfl | hmem''
          · exact absurd hid' (fun he => hid he.symm)
          · have hlk : lookupSlice (mkId item') c1 = lookupSlice (mkId item') c :=
              processItem_lookup_ne fetch c item c1 log1 (mkId item')
                (fun he => hid (hid' ▸ he)) h1
            exact ih'.2 item' hmem'' hid'
              ((fetchNeeded_congr c1 c item' hlk).mpr hneed')

/-! ### HandleSubmapList structure lemmas -/

theorem HandleSubmapList_some (fetch : SubmapId → Option SubmapQueryResponse)
    (n : Nat) (st st1 : NodeState) (msg : SubmapListMsg)
    (log : List SubmapId) (hn : n ≠ 0)
    (h : HandleSubmapList fetch n st msg = some (st1, log)) :
    ∃ c2, processItems fetch st.submap_slices msg.submap = some (c2, log) ∧
      st1.submap_slices =
        ((cacheKeys st.submap_slices).filter
            (fun id => ¬ (msg.submap.map mkId).contains id)).foldl
          (fun acc id => eraseSlice id acc) c2 ∧
      st1.last_frame_id = msg.frame_id ∧
      st1.last_timestamp = msg.stamp := by
  unfold HandleSubmapList at h
  rw [if_neg hn] at h
  cases hp : processItems fetch st.submap_slices msg.submap with
  | none =>
    simp only [hp] at h
    exact Option.noConfusion h
  | some q =>
    obtain ⟨c2, log2⟩ := q
    simp only [hp, Option.some.injEq, Prod.mk.injEq] at h
    obtain ⟨h1, rfl⟩ := h
    exact ⟨c2, rfl, by rw [← h1], by rw [← h1], by rw [← h1]⟩

theorem processItems_preserves_raster
    (fetch : SubmapId → Option SubmapQueryResponse) (id : SubmapId)
    (s0 : SubmapSlice) :
    ∀ (items : List SubmapEntry) (c c2 : Cache) (log : List SubmapId)
      (s : SubmapSlice),
      (∀ item ∈ items, mkId item = id →
        (s0.surface ≠ none ∧ item.submap_version = s0.version) ∨
          fetch id = none) →
      lookupSlice id c = some s → rasterEq s s0 →
      processItems fetch c items = some (c2, log) →
      ∃ s', lookupSlice id c2 = some s' ∧ rasterEq s' s0 := by
  intro items
  induction items with
  | nil =>
    intro c c2 log s _ hl hr h
    simp only [processItems, Option.some.injEq, Prod.mk.injEq] at h
    obtain ⟨rfl, rfl⟩ := h
    exact ⟨s, hl, hr⟩
  | cons item rest ih =>
    intro c c2 log s H hl hr h
    have Hrest : ∀ it ∈ rest, mkId it = id →
        (s0.surface ≠ none ∧ it.submap_version = s0.version) ∨
          fetch id = none :=
      fun it hit => H it (List.mem_cons_of_mem item hit)
    simp only [processItems] at h
    cases h1 : processItem fetch c item with
    | none =>
      simp only [h1] at h
      exact Option.noConfusion h
    | some p =>
      obtain ⟨c1, log1⟩ := p
      simp only [h1] at h
      cases h2 : processItems fetch c1 rest with
      | none =>
        simp only [h2] at h
        exact Option.noConfusion h
      | some q =>
        obtain ⟨c2x, log2⟩ := q
        simp only [h2, Option.some.injEq, Prod.mk.injEq] at h
        obtain ⟨rfl, rfl⟩ := h
        by_cases hid : mkId item = id
        · subst hid
          have hes : entrySlice c item =
              { s with pose := item.pose,
                       metadata_version := item.submap_version } := by
            unfold entrySlice
            rw [hl]
            rfl
          have hre : rasterEq (entrySlice c item) s0 := by
            rw [hes]
            exact hr
          by_cases hneed : fetchNeeded c item
          · rcases H item (List.mem_cons_self item rest) rfl with
              ⟨hsurf, hver⟩ | hfnone
            · exfalso
              have hsurf2 : (entrySlice c item).surface = s0.surface := by
                rw [hes]
                exact hr.1
              have hver2 : (entrySlice c item).version = s0.version := by
                rw [hes]
                exact hr.2.1
              have hcond : (entrySlice c item).surface ≠ none ∧
                  (entrySlice c item).version = item.submap_version := by
                constructor
                · rw [hsurf2]
                  exact hsurf
                · rw [hver2]
                  exact hver.symm
              exact absurd hneed ((not_fetchNeeded_iff c item).mpr hcond)
            · unfold processItem at h1
              rw [if_neg (fetchNeeded_not_cond c item hneed), hfnone] at h1
              simp only [Option.some.injEq, Prod.mk.injEq] at h1
              obtain ⟨hc1, -⟩ := h1
              have hl1 : lookupSlice (mkId item) c1 =
                  some (entrySlice c item) := by
                rw [← hc1]
                exact lookupSlice_insertSlice_self (mkId item)
                  (entrySlice c item) c
              exact ih c1 c2x log2 (entrySlice c item) Hrest hl1 hre h2
          · rw [processItem_eq_of_not_needed fetch c item hneed] at h1
            simp only [Option.some.injEq, Prod.mk.injEq] at h1
            obtain ⟨hc1, -⟩ := h1
            have hl1 : lookupSlice (mkId item) c1 =
                some (entrySlice c item) := by
              rw [← hc1]
              exact lookupSlice_insertSlice_self (mkId item)
                (entrySlice c item) c
            exact ih c1 c2x log2 (entrySlice c item) Hrest hl1 hre h2
        · have hl1 : lookupSlice id c1 = lookupSlice id c :=
            processItem_lookup_ne fetch c item c1 log1 id
              (fun he => hid he.symm) h1
          exact ih c1 c2x log2 s Hrest (by rw [hl1]; exact hl) hr h2

/-! ### Quantizer lemmas -/

theorem foldl_append_eq (f : Nat → List Int) (l : List Nat) (acc : List Int) :
    l.foldl (fun a y => a ++ f y) acc = acc ++ (l.map f).flatten := by
  induction l generalizing acc with
  | nil => simp
  | cons y rest ih =>
    simp only [List.foldl_cons, List.map_cons, List.flatten_cons, ih,
      List.append_assoc]

theorem gridData_eq (pixel : Nat → Nat) (width height : Nat) :
    gridData pixel width height =
      (((List.range height).reverse).map (quantizeRow pixel width)).flatten := by
  unfold gridData
  rw [foldl_append_eq]
  simp

theorem flatten_getElem_uniform (w : Nat) :
    ∀ (rows : List (List Int)), (∀ r ∈ rows, r.length = w) →
      ∀ (i x : Nat), x < w → ∀ (row : List Int), rows[i]? = some row →
        rows.flatten[i * w + x]? = row[x]? := by
  intro rows
  induction rows with
  | nil =>
    intro _ i x _ row hrow
    simp at hrow
  | cons r rest ih =>
    intro hw i x hx row hrow
    cases i with
    | zero =>
      have hr : r = row := by
        simpa using hrow
      subst hr
      rw [List.flatten_cons, Nat.zero_mul, Nat.zero_add,
        List.getElem?_append_left]
      rw [hw r (List.mem_cons_self r rest)]
      exact hx
    | succ j =>
      have hrowj : rest[j]? = some row := by
        simpa using hrow
      have hlen : r.length = w := hw r (List.mem_cons_self r rest)
      have hge : r.length ≤ (j + 1) * w + x := by
        rw [hlen, Nat.succ_mul]
        omega
      rw [List.flatten_cons, List.getElem?_append_right hge]
      have hidx : (j + 1) * w + x - r.length = j * w + x := by
        rw [hlen, Nat.succ_mul]
        omega
      rw [hidx]
      exact ih (fun q hq => hw q (List.mem_cons_of_mem r hq)) j x hx row hrowj

/-! ### Claim theorems -/

/-- Claim C2: for every composited pixel the quantizer outputs -1 when the
observed byte is 0 regardless of the color byte, and otherwise outputs
round((1 - color/255) * 100); for every color byte this value lies in
[0, 100], so the fatal out-of-range CHECKs of lines 225-226 never fire. -/
theorem cellValue_quantization (packed : Nat) :
    (observedOf packed = 0 → cellValue packed = -1) ∧
    (observedOf packed ≠ 0 →
      cellValue packed =
        RoundToInt ((1 - (colorOf packed : ℚ) / 255) * 100) ∧
      0 ≤ cellValue packed ∧ cellValue packed ≤ 100) := by
  constructor
  · intro h
    simp [cellValue, h]
  · intro h
    have heq : cellValue packed =
        RoundToInt ((1 - (colorOf packed : ℚ) / 255) * 100) := by
      simp [cellValue, h]
    have hc0 : (0 : ℚ) ≤ (colorOf packed : ℚ) := Nat.cast_nonneg _
    have hc255 : (colorOf packed : ℚ) ≤ 255 := by
      have h1 : colorOf packed < 256 := Nat.mod_lt _ (by norm_num)
      have h2 : colorOf packed ≤ 255 := by omega
      exact_mod_cast h2
    have hd1 : (colorOf packed : ℚ) / 255 ≤ 1 := by
      rw [div_le_one (by norm_num)]
      exact hc255
    have hd0 : (0 : ℚ) ≤ (colorOf packed : ℚ) / 255 := by positivity
    have hq0 : (0 : ℚ) ≤ (1 - (colorOf packed : ℚ) / 255) * 100 := by
      nlinarith
    have hq100 : (1 - (colorOf packed : ℚ) / 255) * 100 ≤ 100 := by
      nlinarith
    have hlow : 0 ≤ RoundToInt ((1 - (colorOf packed : ℚ) / 255) * 100) := by
      unfold RoundToInt
      rw [round_eq]
      refine Int.le_floor.mpr ?_
      push_cast
      linarith
    have hhigh : RoundToInt ((1 - (colorOf packed : ℚ) / 255) * 100) ≤ 100 := by
      unfold RoundToInt
      rw [round_eq]
      have hlt : ⌊(1 - (colorOf packed : ℚ) / 255) * 100 + 1 / 2⌋ < 101 := by
        refine Int.floor_lt.mpr ?_
        push_cast
        linarith
      omega
    exact ⟨heq, heq ▸ hlow, heq ▸ hhigh⟩

/-- Claim C2 witness: concrete pixels.  Pixel 255 has observed byte 0, so
its cell is -1; pixel 65280 has observed byte 255 and color byte 0, and its
cell value lies in [0, 100]. -/
theorem cellValue_quantization_witness :
    cellValue 255 = -1 ∧ 0 ≤ cellValue 65280 ∧ cellValue 65280 ≤ 100 :=
  ⟨(cellValue_quantization 255).1 (by decide),
    ((cellValue_quantization 65280).2 (by decide)).2.1,
    ((cellValue_quantization 65280).2 (by decide)).2.2⟩

/-- Claim C5: the emitted cell sequence is vertically flipped: emitted row r
(cells r*width .. r*width+width-1) is source row height-1-r, scanned left to
right. -/
theorem gridData_vertical_flip (pixel : Nat → Nat) (width height r x : Nat)
    (hr : r < height) (hx : x < width) :
    (gridData pixel width height)[r * width + x]? =
      some (cellValue (pixel ((height - 1 - r) * width + x))) := by
  rw [gridData_eq]
  have hw : ∀ rowL ∈ ((List.range height).reverse).map (quantizeRow pixel width),
      rowL.length = width := by
    intro rowL hm
    obtain ⟨y, -, rfl⟩ := List.mem_map.mp hm
    simp [quantizeRow]
  have hrev : ((List.range height).reverse)[r]? = some (height - 1 - r) := by
    rw [List.getElem?_reverse (by simpa using hr), List.length_range]
    exact List.getElem?_range (by omega)
  have hrow : (((List.range height).reverse).map (quantizeRow pixel width))[r]? =
      some (quantizeRow pixel width (height - 1 - r)) := by
    rw [List.getElem?_map, hrev]
    rfl
  rw [flatten_getElem_uniform width _ hw r x hx _ hrow]
  simp [quantizeRow, List.getElem?_map, List.getElem?_range hx]

/-- Claim C5 witness: in a 2-by-2 grid over the ramp pixel array, the first
emitted cell is the bottom-left source pixel (index 2). -/
theorem gridData_vertical_flip_witness :
    (gridData rampPixels 2 2)[0 * 2 + 0]? =
      some (cellValue (rampPixels ((2 - 1 - 0) * 2 + 0))) :=
  gridData_vertical_flip rampPixels 2 2 0 0 (by decide) (by decide)

/-- Claim C6: the published origin is (-ox * resolution,
(-height + oy) * resolution, 0) with identity orientation; in particular,
for originOffset (10, 20), height 100 and resolution 1/20 = 0.05 the origin
is (-1/2, -4). -/
theorem PublishOccupancyGrid_origin (resolution : ℚ) (frame_id : String)
    (time : Int) (ox oy : ℚ) (pixel : Nat → Nat) (width height : Nat) :
    ((PublishOccupancyGrid resolution frame_id time ox oy pixel width
        height).originX = -ox * resolution ∧
      (PublishOccupancyGrid resolution frame_id time ox oy pixel width
        height).originY = (-(height : ℚ) + oy) * resolution ∧
      (PublishOccupancyGrid resolution frame_id time ox oy pixel width
        height).originZ = 0 ∧
      (PublishOccupancyGrid resolution frame_id time ox oy pixel width
        height).orientW = 1 ∧
      (PublishOccupancyGrid resolution frame_id time ox oy pixel width
        height).orientX = 0 ∧
      (PublishOccupancyGrid resolution frame_id time ox oy pixel width
        height).orientY = 0 ∧
      (PublishOccupancyGrid resolution frame_id time ox oy pixel width
        height).orientZ = 0) ∧
    (PublishOccupancyGrid (1/20) "map" 0 10 20 pixel 120 100).originX =
      -(1/2) ∧
    (PublishOccupancyGrid (1/20) "map" 0 10 20 pixel 120 100).originY = -4 := by
  refine ⟨⟨rfl, rfl, rfl, rfl, rfl, rfl, rfl⟩, ?_, ?_⟩
  · show -(10 : ℚ) * (1/20) = -(1/2)
    norm_num
  · show (-(100 : ℚ) + 20) * (1/20) = -4
    norm_num

/-- Claim C7: a render tick with an empty cache or no established frame id
produces no output: nothing is composited and nothing is published. -/
theorem DrawAndPublish_skip (compositor : Cache → ℚ → PaintedSlicesResult)
    (resolution : ℚ) (st : NodeState)
    (h : st.submap_slices = [] ∨ st.last_frame_id = "") :
    DrawAndPublish compositor resolution st = none := by
  unfold DrawAndPublish
  rw [if_pos h]

/-- Claim C7 witness: the empty initial state is skipped. -/
theorem DrawAndPublish_skip_witness :
    DrawAndPublish constCompositor 0 emptyState = none :=
  DrawAndPublish_skip constCompositor 0 emptyState (Or.inl rfl)

/-- Claim C9: with zero subscribers on the monitored topic the handler
returns immediately: the returned state is the input state (cache, frame id
and timestamp unchanged) and no fetch call is issued. -/
theorem HandleSubmapList_zero_subscribers
    (fetch : SubmapId → Option SubmapQueryResponse) (st : NodeState)
    (msg : SubmapListMsg) :
    HandleSubmapList fetch 0 st msg = some (st, []) := by
  unfold HandleSubmapList
  rw [if_pos rfl]

theorem rasterEq_refl (s : SubmapSlice) : rasterEq s s :=
  ⟨rfl, rfl, rfl, rfl, rfl, rfl⟩

/-- Claim C8 (amended): on an output-producing tick the exclusive section
spans the rest of the call: the lock is acquired before the compositor is
invoked and released only after the frame has been quantized and
published, not before it is handed to the quantizer. -/
theorem drawAndPublishTrace_release_last (cacheEmpty frameIdEmpty : Bool) :
    drawAndPublishTrace cacheEmpty frameIdEmpty = [] ∨
      ((drawAndPublishTrace cacheEmpty frameIdEmpty).indexOf
          DrawEvent.acquireLock <
        (drawAndPublishTrace cacheEmpty frameIdEmpty).indexOf
          DrawEvent.paintSubmapSlices ∧
       (drawAndPublishTrace cacheEmpty frameIdEmpty).indexOf
          DrawEvent.paintSubmapSlices <
        (drawAndPublishTrace cacheEmpty frameIdEmpty).indexOf
          DrawEvent.quantizeAndPublish ∧
       (drawAndPublishTrace cacheEmpty frameIdEmpty).indexOf
          DrawEvent.quantizeAndPublish <
        (drawAndPublishTrace cacheEmpty frameIdEmpty).indexOf
          DrawEvent.releaseLock) := by
  cases cacheEmpty <;> cases frameIdEmpty <;> decide

/-- Claim C8 counterexample: on the output-producing tick the lock-release
event comes after quantize-and-publish, not before it, so the frame is NOT
handed to the quantizer after releasing exclusivity. -/
theorem drawAndPublishTrace_lock_held_through_quantize :
    drawAndPublishTrace false false =
      [DrawEvent.acquireLock, DrawEvent.paintSubmapSlices,
       DrawEvent.quantizeAndPublish, DrawEvent.releaseLock] ∧
    ¬ ((drawAndPublishTrace false false).indexOf DrawEvent.releaseLock <
        (drawAndPublishTrace false false).indexOf
          DrawEvent.quantizeAndPublish) := by
  decide

/-- Claim C1: after a reconciliation pass that does work (nonzero
subscriber count) and completes, the cache key set is exactly the set of
ids mentioned in the message: unmentioned ids are purged and every
mentioned id has a record. -/
theorem HandleSubmapList_key_set
    (fetch : SubmapId → Option SubmapQueryResponse) (n : Nat)
    (st st1 : NodeState) (msg : SubmapListMsg) (log : List SubmapId)
    (hn : n ≠ 0) (h : HandleSubmapList fetch n st msg = some (st1, log)) :
    ∀ id, id ∈ cacheKeys st1.submap_slices ↔ id ∈ msg.submap.map mkId := by
  obtain ⟨c2, hp, hslices, -, -⟩ :=
    HandleSubmapList_some fetch n st st1 msg log hn h
  intro id
  rw [hslices, mem_cacheKeys_foldl_erase]
  rw [processItems_mem_keys fetch msg.submap st.submap_slices c2 log hp id]
  constructor
  · rintro ⟨hin, hnotdel⟩
    rcases hin with hm | hold
    · exact hm
    · by_cases hmem : id ∈ msg.submap.map mkId
      · exact hmem
      · exfalso
        apply hnotdel
        rw [List.mem_filter]
        refine ⟨hold, ?_⟩
        simp [hmem]
  · intro hmem
    refine ⟨Or.inl hmem, ?_⟩
    intro hdel
    rw [List.mem_filter] at hdel
    simp [hmem] at hdel

/-- Claim C1 witness: applying msgA (mentioning only idA) to a state
caching only the stale idB leaves exactly idA cached: idA present, idB
purged. -/
theorem HandleSubmapList_key_set_witness :
    (idA ∈ cacheKeys stateAfterA.submap_slices ↔
      idA ∈ msgA.submap.map mkId) ∧
    (idB ∈ cacheKeys stateAfterA.submap_slices ↔
      idB ∈ msgA.submap.map mkId) :=
  ⟨HandleSubmapList_key_set fetchUnavailable 1 stateB stateAfterA msgA
      [idA] (by decide) (by decide) idA,
    HandleSubmapList_key_set fetchUnavailable 1 stateB stateAfterA msgA
      [idA] (by decide) (by decide) idB⟩

/-- Claim C3 counterexample: a batch that mentions the same id twice, with
the gateway unavailable, issues two fetch calls for that id within a single
reconciliation pass, so "at most one fetch per id per call" fails for
batches with repeated ids. -/
theorem HandleSubmapList_duplicate_id_two_fetches :
    (fetchLogOf (HandleSubmapList fetchUnavailable 1 emptyState
        msgDupA)).count idA = 2 := by
  decide

/-- Claim C3 (amended): provided each id appears at most once in the batch,
at most one fetch is issued per id per reconciliation pass, and exactly one
fetch is issued for an id whose entry needs one (no cached surface yet, or
a cached texture version differing from the entry version). -/
theorem HandleSubmapList_fetch_count
    (fetch : SubmapId → Option SubmapQueryResponse) (n : Nat)
    (st st1 : NodeState) (msg : SubmapListMsg) (log : List SubmapId)
    (id : SubmapId) (hn : n ≠ 0) (hdup : (msg.submap.map mkId).Nodup)
    (h : HandleSubmapList fetch n st msg = some (st1, log)) :
    log.count id ≤ 1 ∧
      ∀ item ∈ msg.submap, mkId item = id →
        fetchNeeded st.submap_slices item → log.count id = 1 := by
  obtain ⟨c2, hp, -, -, -⟩ :=
    HandleSubmapList_some fetch n st st1 msg log hn h
  exact processItems_count fetch msg.submap id st.submap_slices c2 log hdup hp

/-- Claim C3 witness: one fresh id on an empty cache with an unavailable
gateway gets exactly one fetch call in the pass. -/
theorem HandleSubmapList_fetch_count_witness :
    ([idA] : List SubmapId).count idA = 1 :=
  (HandleSubmapList_fetch_count fetchUnavailable 1 emptyState stateAfterA
      msgA [idA] idA (by decide) (by decide) (by decide)).2
    entryA (by decide) (by decide) (by decide)

/-- Claim C4: an id mentioned in the batch for which no successful fetch
occurs — every occurrence of it either repeats the cached texture version
with a surface present, or finds the gateway unavailable — keeps its
buffer, texture version, width, height, slice origin and resolution
unchanged by the pass. -/
theorem HandleSubmapList_no_fetch_preserves_raster
    (fetch : SubmapId → Option SubmapQueryResponse) (n : Nat)
    (st st1 : NodeState) (msg : SubmapListMsg) (log : List SubmapId)
    (id : SubmapId) (s0 : SubmapSlice)
    (hs0 : lookupSlice id st.submap_slices = some s0)
    (hmem : id ∈ msg.submap.map mkId)
    (H : ∀ item ∈ msg.submap, mkId item = id →
      (s0.surface ≠ none ∧ item.submap_version = s0.version) ∨
        fetch id = none)
    (h : HandleSubmapList fetch n st msg = some (st1, log)) :
    lookupSlice id st1.submap_slices ≠ none ∧
      rasterEq ((lookupSlice id st1.submap_slices).getD defaultSlice) s0 := by
  by_cases hn : n = 0
  · subst hn
    rw [HandleSubmapList_zero_subscribers fetch st msg] at h
    simp only [Option.some.injEq, Prod.mk.injEq] at h
    obtain ⟨rfl, rfl⟩ := h
    rw [hs0]
    exact ⟨fun hx => Option.noConfusion hx, rasterEq_refl s0⟩
  · obtain ⟨c2, hp, hslices, -, -⟩ :=
      HandleSubmapList_some fetch n st st1 msg log hn h
    obtain ⟨s', hl', hr'⟩ :=
      processItems_preserves_raster fetch id s0 msg.submap
        st.submap_slices c2 log s0 H hs0 (rasterEq_refl s0) hp
    have hnotdel : id ∉ (cacheKeys st.submap_slices).filter
        (fun i => ¬ (msg.submap.map mkId).contains i) := by
      intro hdel
      rw [List.mem_filter] at hdel
      simp [hmem] at hdel
    rw [hslices, lookupSlice_foldl_erase _ c2 id hnotdel, hl']
    exact ⟨fun hx => Option.noConfusion hx, hr'⟩

/-- Claim C4 witness: repeating idA at its cached texture version leaves the
raster fields of its record unchanged (only pose and metadata version are
overwritten). -/
theorem HandleSubmapList_no_fetch_preserves_raster_witness :
    lookupSlice idA stateA1After.submap_slices ≠ none ∧
      rasterEq ((lookupSlice idA stateA1After.submap_slices).getD
        defaultSlice) sliceA1 :=
  HandleSubmapList_no_fetch_preserves_raster fetchUnavailable 1 stateA1
    stateA1After msgA [] idA sliceA1 (by decide) (by decide) (by decide)
    (by decide)

/-- Claim C10: on a successful fetch, the record's texture version is set
to the version field of the fetch response, not to the metadata version
carried by the triggering entry; the entry's version is stored separately
as metadata_version, so the two can differ after the fetch. -/
theorem processItem_version_from_response
    (fetch : SubmapId → Option SubmapQueryResponse) (c : Cache)
    (item : SubmapEntry) (resp : SubmapQueryResponse) (t : SubmapTexture)
    (ts : List SubmapTexture) (c1 : Cache) (log : List SubmapId)
    (hf : fetch (mkId item) = some resp) (ht : resp.textures = t :: ts)
    (hneed : fetchNeeded c item)
    (h : processItem fetch c item = some (c1, log)) :
    log = [mkId item] ∧
      lookupSlice (mkId item) c1 ≠ none ∧
      ((lookupSlice (mkId item) c1).getD defaultSlice).version =
        resp.version ∧
      ((lookupSlice (mkId item) c1).getD defaultSlice).metadata_version =
        item.submap_version := by
  unfold processItem at h
  rw [if_neg (fetchNeeded_not_cond c item hneed), hf] at h
  simp only [ht, Option.some.injEq, Prod.mk.injEq] at h
  obtain ⟨hc1, hlog⟩ := h
  refine ⟨hlog.symm, ?_, ?_, ?_⟩ <;>
    rw [← hc1, lookupSlice_insertSlice_self]
  · exact fun hx => Option.noConfusion hx
  · rfl
  · rfl

/-- Claim C10 witness: fetching a fresh idA through the version-9 gateway
while the triggering entry carries metadata version 1 records texture
version 9 and metadata version 1. -/
theorem processItem_version_from_response_witness :
    ([idA] : List SubmapId) = [mkId entryA] ∧
      lookupSlice (mkId entryA) cacheV9 ≠ none ∧
      ((lookupSlice (mkId entryA) cacheV9).getD defaultSlice).version =
        respV9.version ∧
      ((lookupSlice (mkId entryA) cacheV9).getD defaultSlice).metadata_version =
        entryA.submap_version :=
  processItem_version_from_response fetchV9 [] entryA respV9 tex9 []
    cacheV9 [idA] rfl rfl (by decide) (by decide)

end OccupancyGridNode

